import Mathlib

/-
Verification of the opendal-util copy/list/glob engine.

The Rust sources (src/copy.rs, src/list.rs, src/glob.rs) are shallowly
embedded here.  Paths are strings over '/' separators; the typed_path
helpers used by the code (normalize, file_name, parent, join,
strip_prefix, component-wise path equality) are embedded at the level of
character lists.  The storage operators are modelled as oracles: stat,
backend listing and the byte-chunk reader are function-valued parameters,
and all destination-side effects (create_dir, writer open/write/close)
are recorded in an explicit trace.
-/

/-! ## Basic data model (opendal types used by the code) -/

/-- Byte chunk as yielded by a reader stream. -/
abbrev Chunk := List Nat

/-- Entry mode from opendal (`EntryMode`): file, directory, or unknown. -/
inductive EntryMode where
  | FILE
  | DIR
  | Unknown
deriving DecidableEq

/-- Error kinds from the opendal taxonomy used by the code. -/
inductive ErrorKind where
  | NotFound
  | PermissionDenied
  | AlreadyExists
  | IsADirectory
  | NotADirectory
  | Unsupported
  | Unexpected
  | Other
deriving DecidableEq

/-- An opendal `Error`: a kind plus a message. -/
structure OpError where
  kind : ErrorKind
  message : String
deriving DecidableEq

/-- Entry metadata (`opendal::Metadata`): the mode, the content type, and
the filename suggested by a parsed `Content-Disposition` header
(`parse_content_disposition(cd).filename_full()` is folded into this one
optional field). -/
structure Metadata where
  mode : EntryMode
  contentType : Option String
  contentDispositionFilename : Option String
deriving DecidableEq

/-- A listing entry (`opendal::Entry`): a path and its metadata. -/
structure Entry where
  path : String
  meta : Metadata
deriving DecidableEq

/-- Equality of `Except` results is decidable when both sides are. -/
instance {ε α : Type} [DecidableEq ε] [DecidableEq α] : DecidableEq (Except ε α) :=
  fun x y =>
    match x, y with
    | Except.error a, Except.error b => decidable_of_iff (a = b) (by simp)
    | Except.error _, Except.ok _ => isFalse (by simp)
    | Except.ok _, Except.error _ => isFalse (by simp)
    | Except.ok a, Except.ok b => decidable_of_iff (a = b) (by simp)

/-- Listing options (`opendal::options::ListOptions`); the code only ever
touches the `recursive` flag. -/
structure ListOptions where
  recursive : Bool
deriving DecidableEq

/-- Default listing options: non-recursive. -/
def ListOptions.default : ListOptions := ⟨false⟩

/-! ## Character-level path machinery

`typed_path::Utf8UnixPathBuf` operations are embedded over `List Char`. -/

/-- Split a character list on `'/'`, keeping empty segments
(the semantics of Rust's `str::split('/')`). -/
def splitSlash : List Char → List (List Char)
  | [] => [[]]
  | c :: cs =>
    if c = '/' then [] :: splitSlash cs
    else
      match splitSlash cs with
      | [] => [[c]]
      | s :: rest => (c :: s) :: rest

/-- Join segments with `'/'` (the semantics of `Vec::join("/")`). -/
def joinSlash : List (List Char) → List Char
  | [] => []
  | [s] => s
  | s :: s' :: rest => s ++ '/' :: joinSlash (s' :: rest)

/-- Is `c` one of the glob metacharacters `*`, `?`, `[`, `{`? -/
def isGlobChar (c : Char) : Bool :=
  c = '*' || c = '?' || c = '[' || c = '{'

/-- Does some character of `cs` have a glob metacharacter? -/
def hasGlobCharsL (cs : List Char) : Bool := cs.any isGlobChar

/-- Embeds `glob::has_glob_chars`. -/
def has_glob_chars (s : String) : Bool := hasGlobCharsL s.data

/-- Embeds `glob::literal_prefix` on character lists: accumulate the
components before the first component containing a glob character;
return their join when such a component exists, else `none`. -/
def literalPrefixL (cs : List Char) : Option (List Char) :=
  let comps := splitSlash cs
  let pre := comps.takeWhile (fun c => !hasGlobCharsL c)
  if pre.length = comps.length then none else some (joinSlash pre)

/-- Embeds `glob::literal_prefix`. -/
def literalPrefixOf (s : String) : Option String :=
  (literalPrefixL s.data).map fun cs => ⟨cs⟩

/-! ### Normalization (`normalize_path` in copy.rs)

`normalize_path` records whether the input ends in `'/'`, runs
`Utf8UnixPathBuf::normalize` (lexically drop `.` segments, pop a segment
on `..` with clamping when there is nothing to pop), strips the leading
slashes, and re-appends the trailing slash. -/

/-- One step of typed_path's lexical normalization over raw segments:
empty and `.` segments are dropped (empty segments cover both repeated
separators and the leading root), `..` pops the last accumulated segment
(no-op when there is none), and any other segment is pushed. -/
def normStepL (acc : List (List Char)) (seg : List Char) : List (List Char) :=
  if seg = [] then acc
  else if seg = ['.'] then acc
  else if seg = ['.', '.'] then acc.dropLast
  else acc ++ [seg]

/-- The normalized segments of a path. -/
def normSegs (cs : List Char) : List (List Char) :=
  (splitSlash cs).foldl normStepL []

/-- Embeds `normalize_path` on character lists. -/
def normalizeL (cs : List Char) : List Char :=
  if cs.getLast? = some '/' then joinSlash (normSegs cs) ++ ['/']
  else joinSlash (normSegs cs)

/-- Embeds `normalize_path` from copy.rs. -/
def normalize_path (s : String) : String := ⟨normalizeL s.data⟩

/-! ### typed_path components

`Utf8UnixPath` comparisons (`PartialEq`/`Hash`, hence `HashSet`
membership) and the `file_name`/`parent`/`strip_prefix` accessors work
on parsed components, mirroring `std::path`. -/

/-- A parsed path component: root `/`, current dir `.`, parent `..`, or
a normal segment. -/
inductive PComp where
  | root
  | cur
  | par
  | normal (s : List Char)
deriving DecidableEq

/-- Parse a path into typed_path components: a leading `/` is the root;
empty segments vanish; `.` survives only as the leading component of a
relative path; `..` is a parent component. -/
def compsOfL (cs : List Char) : List PComp :=
  let segs := (splitSlash cs).filter (fun s => s ≠ [])
  let lead : List PComp :=
    if cs.head? = some '/' then [PComp.root]
    else
      match segs.head? with
      | some s => if s = ['.'] then [PComp.cur] else []
      | none => []
  lead ++ (segs.filter (fun s => s ≠ ['.'])).map
    (fun s => if s = ['.', '.'] then PComp.par else PComp.normal s)

/-- Components of a path string; equality of these lists is the
`Utf8UnixPathBuf` equality used by the `HashSet` of created dirs. -/
def pathComps (s : String) : List PComp := compsOfL s.data

/-- Rebuild a path string from components. -/
def pathOfComps (l : List PComp) : List Char :=
  match l with
  | PComp.root :: rest =>
    '/' :: joinSlash (rest.map fun c =>
      match c with
      | PComp.root => []
      | PComp.cur => ['.']
      | PComp.par => ['.', '.']
      | PComp.normal s => s)
  | _ =>
    joinSlash (l.map fun c =>
      match c with
      | PComp.root => []
      | PComp.cur => ['.']
      | PComp.par => ['.', '.']
      | PComp.normal s => s)

/-- Embeds `Utf8UnixPath::file_name`: the last component when it is a
normal segment. -/
def fileNameOf (s : String) : Option String :=
  match (pathComps s).getLast? with
  | some (PComp.normal seg) => some ⟨seg⟩
  | _ => none

/-- Embeds `Utf8UnixPath::parent`: the path without its last component;
`none` for the empty path and for the root. -/
def parentPath (s : String) : Option String :=
  match (pathComps s).getLast? with
  | none => none
  | some PComp.root => none
  | some _ => some ⟨pathOfComps (pathComps s).dropLast⟩

/-- Embeds `Utf8UnixPathBuf::join`: an absolute child replaces the base;
otherwise the child is appended, inserting a separator when needed. -/
def joinPath (base child : String) : String :=
  if child.data.head? = some '/' then child
  else if base = "" then child
  else if base.data.getLast? = some '/' then ⟨base.data ++ child.data⟩
  else ⟨base.data ++ '/' :: child.data⟩

/-- Embeds `Utf8UnixPath::strip_prefix`: succeeds when the components of
`pre` are a prefix of the components of `s`, returning the remainder. -/
def stripPrefixOf (s pre : String) : Option String :=
  if (pathComps pre).isPrefixOf (pathComps s)
  then some ⟨pathOfComps ((pathComps s).drop (pathComps pre).length)⟩
  else none

/-- Embeds `str::trim_start_matches('/')`. -/
def trimLeadingSlashes (s : String) : String :=
  ⟨s.data.dropWhile (fun c => c = '/')⟩

/-! ## list.rs: eager and lazy listing

The backend's `lister_options` is an oracle
`listB : String → ListOptions → List (Except OpError Entry)` producing
the raw stream (each element an entry or an error, as a Rust
`TryStream` yields them); `operator.lister(path)` is the same call with
the default (non-recursive) options.  Compiling a `globset::Glob` is the
oracle `compile : String → Option (String → Bool)`; `none` models a
malformed pattern, which the code maps to an `Unexpected` error. -/

/-- Type of the backend-listing oracle. -/
abbrev ListB := String → ListOptions → List (Except OpError Entry)

/-- Type of the glob-compilation oracle. -/
abbrev GlobCompile := String → Option (String → Bool)

/-- Embeds `list::lister`: when the path has a literal prefix (i.e. it
is a glob), force a recursive listing rooted at that prefix and filter
the stream through the matcher compiled from the full pattern (errors
pass through, as with `try_filter`); otherwise delegate to the backend
with the caller's options, defaulting to a non-recursive listing. -/
def lister (listB : ListB) (compile : GlobCompile) (path : String)
    (options : Option ListOptions) : Except OpError (List (Except OpError Entry)) :=
  match literalPrefixOf path with
  | some pre =>
    match compile path with
    | none => Except.error ⟨ErrorKind.Unexpected, "Invalid glob pattern"⟩
    | some m =>
      Except.ok ((listB pre { options.getD ListOptions.default with recursive := true }).filter
        (fun r =>
          match r with
          | Except.ok e => m e.path
          | Except.error _ => true))
  | none =>
    match options with
    | some o => Except.ok (listB path o)
    | none => Except.ok (listB path ListOptions.default)

/-- Embeds `TryStreamExt::try_collect` on a finite stream: collect the
entries in order, aborting with the first error. -/
def collectStream : List (Except OpError Entry) → Except OpError (List Entry)
  | [] => Except.ok []
  | Except.ok e :: rest => (collectStream rest).map (fun l => e :: l)
  | Except.error err :: _ => Except.error err

/-- Embeds `list::list`: run `lister` and `try_collect` its stream. -/
def list (listB : ListB) (compile : GlobCompile) (path : String)
    (options : Option ListOptions) : Except OpError (List Entry) :=
  (lister listB compile path options).bind collectStream

/-- The entries a stream yields, in order (for the collection spec). -/
def okEntriesOf (s : List (Except OpError Entry)) : List Entry :=
  s.filterMap (fun r =>
    match r with
    | Except.ok e => some e
    | Except.error _ => none)

/-- The first error of a stream, if any (for the collection spec). -/
def firstErrOf (s : List (Except OpError Entry)) : Option OpError :=
  s.findSome? (fun r =>
    match r with
    | Except.ok _ => none
    | Except.error e => some e)

/-- Collection as the refinement claim words it: collecting a lazy
stream yields exactly its entries in order, or its first error. -/
def collectSpec (s : List (Except OpError Entry)) : Except OpError (List Entry) :=
  match firstErrOf s with
  | some e => Except.error e
  | none => Except.ok (okEntriesOf s)

/-! ## copy.rs: the Copier -/

/-- Options for controlling copy behavior (`CopyOptions`). -/
structure CopyOptions where
  recursive : Bool
deriving DecidableEq

/-- The derived `Default`: `recursive` is `false`. -/
def CopyOptions.default : CopyOptions := ⟨false⟩

/-- A destination-side effect performed by the copier, in order:
directory creation, writer opening (carrying the content-type hint),
a chunk write, or the final writer close. -/
inductive DestOp where
  | createDir (path : String)
  | openWriter (path : String) (contentType : Option String)
  | writeChunk (path : String) (chunk : Chunk)
  | closeWriter (path : String)
deriving DecidableEq

/-- The `Copier`: the two operators' capabilities used by copy.rs,
as oracles.  `statSrc`/`statDst` are `stat` on the source/destination
operator, `listSrc` is the source backend's listing, `compile` the glob
compiler, and `readSrc` the source reader's chunk stream for a path. -/
structure Copier where
  statSrc : String → Except OpError Metadata
  statDst : String → Except OpError Metadata
  listSrc : ListB
  compile : GlobCompile
  readSrc : String → List (Except OpError Chunk)

/-- A resolved source (`struct Source` in copy.rs): path and metadata. -/
structure Source where
  path : String
  meta : Metadata

/-- Embeds `Source::name`: the path's file name, else the
content-disposition filename hint, else an `Unexpected` error. -/
def Source.name (s : Source) : Except OpError String :=
  match fileNameOf s.path with
  | some n => Except.ok n
  | none =>
    match s.meta.contentDispositionFilename with
    | some n => Except.ok n
    | none => Except.error ⟨ErrorKind.Unexpected, "Source has no filename"⟩

/-- Drain a reader stream into writer ops at `dest`: each ok chunk
becomes a write, in order; the first error aborts the stream. -/
def writeChunks (dest : String) : List (Except OpError Chunk) → List DestOp × Option OpError
  | [] => ([], none)
  | Except.ok c :: rest =>
    let r := writeChunks dest rest
    (DestOp.writeChunk dest c :: r.1, r.2)
  | Except.error e :: _ => ([], some e)

/-- Embeds `Copier::do_copy_file`: open a writer at the destination
(propagating the source's content type), write every chunk of the
source stream in order, and close the writer; an error while streaming
aborts before the close. -/
def Copier.do_copy_file (self : Copier) (source : Source) (destination : String) :
    List DestOp × Option OpError :=
  let r := writeChunks destination (self.readSrc source.path)
  match r.2 with
  | some e => (DestOp.openWriter destination source.meta.contentType :: r.1, some e)
  | none =>
    (DestOp.openWriter destination source.meta.contentType ::
      (r.1 ++ [DestOp.closeWriter destination]), none)

/-- Embeds `Copier::copy_file`: resolve the real destination from the
destination stat (directory: nest under the source's name; file:
overwrite in place; not found: create the parent directory first),
then stream the file. -/
def Copier.copy_file (self : Copier) (source : Source) (destination : String) :
    List DestOp × Option OpError :=
  match self.statDst destination with
  | Except.ok st =>
    if st.mode = EntryMode.DIR then
      match source.name with
      | Except.ok n => self.do_copy_file source (joinPath destination n)
      | Except.error e => ([], some e)
    else self.do_copy_file source destination
  | Except.error e =>
    if e.kind = ErrorKind.NotFound then
      let pOps :=
        match parentPath destination with
        | some par => [DestOp.createDir par]
        | none => []
      let r := self.do_copy_file source destination
      (pOps ++ r.1, r.2)
    else ([], some e)

/-- The relative-path computation of the entry loop: strip the source
prefix from the entry path (trimming any leading separator left over),
falling back to the full entry path when the entry is not under the
expected prefix; an empty prefix leaves the path as is. -/
def relPathOf (sourcePre entryPath : String) : String :=
  if sourcePre = "" then entryPath
  else
    match stripPrefixOf entryPath sourcePre with
    | some p => trimLeadingSlashes p
    | none => entryPath

/-- The `if let Some(parent) = dest_path.parent() && !created_dirs
.contains(parent)` block of the entry loop: create the parent directory
(with a trailing separator, as `format!("{}/", parent)` does) unless it
is already in the created set, which compares paths component-wise as
`Utf8UnixPathBuf` equality does. -/
def ensureDir (created : List String) (destPath : String) : List DestOp × List String :=
  match parentPath destPath with
  | some par =>
    if created.any (fun q => pathComps q = pathComps par) then ([], created)
    else ([DestOp.createDir (par ++ "/")], par :: created)
  | none => ([], created)

/-- The entry loop of `Copier::copy_entries`: skip directory entries,
compute each entry's destination from the stripped relative path,
create the destination parent once per distinct directory (tracked in
`created`), and stream the file; the first error aborts the
traversal. -/
def Copier.entriesLoop (self : Copier) (sourcePre destination : String) :
    List (Except OpError Entry) → List String → List DestOp × Option OpError
  | [], _ => ([], none)
  | Except.error e :: _, _ => ([], some e)
  | Except.ok entry :: rest, created =>
    if entry.meta.mode = EntryMode.DIR then
      self.entriesLoop sourcePre destination rest created
    else
      let entryPath := entry.path
      let destPath := joinPath destination (relPathOf sourcePre entryPath)
      let step := ensureDir created destPath
      let fileRes := self.do_copy_file ⟨entryPath, entry.meta⟩ destPath
      match fileRes.2 with
      | some e => (step.1 ++ fileRes.1, some e)
      | none =>
        let restRes := self.entriesLoop sourcePre destination rest step.2
        (step.1 ++ fileRes.1 ++ restRes.1, restRes.2)

/-- Embeds `Copier::copy_entries`: stat the destination (a plain file is
a `NotADirectory` error before any effect; not found creates the
destination directory), then run the entry loop with the destination
pre-marked as created. -/
def Copier.copy_entries (self : Copier) (stream : List (Except OpError Entry))
    (sourcePre destination : String) : List DestOp × Option OpError :=
  match self.statDst destination with
  | Except.ok st =>
    if st.mode = EntryMode.FILE then
      ([], some ⟨ErrorKind.NotADirectory, "Cannot copy directory to a file"⟩)
    else self.entriesLoop sourcePre destination stream [destination]
  | Except.error e =>
    if e.kind = ErrorKind.NotFound then
      let r := self.entriesLoop sourcePre destination stream [destination]
      (DestOp.createDir (destination ++ "/") :: r.1, r.2)
    else ([], some e)

/-- Modelled from the spec: `glob::extract_glob_prefix` is called by
`Copier::copy_glob` but is absent from the sources under src/; the spec
(§4.2) defines the literal prefix of a pattern as the accumulated
glob-free leading segments, which is exactly `literal_prefix`. -/
def extractGlobPrefixOf (s : String) : Option String := literalPrefixOf s

/-- Embeds `Copier::copy_glob`: list through the glob-aware lister and
copy the entries, with the glob's literal prefix as source prefix. -/
def Copier.copy_glob (self : Copier) (source destination : String) :
    List DestOp × Option OpError :=
  let pre := (extractGlobPrefixOf source).getD ""
  match lister self.listSrc self.compile source none with
  | Except.error e => ([], some e)
  | Except.ok stream => self.copy_entries stream pre destination

/-- Embeds `Copier::copy_dir`: list the directory (recursively when
requested) and copy the entries, with the directory as source prefix. -/
def Copier.copy_dir (self : Copier) (source : Source) (destination : String)
    (recursive : Bool) : List DestOp × Option OpError :=
  let options : Option ListOptions := if recursive then some ⟨true⟩ else none
  match lister self.listSrc self.compile source.path options with
  | Except.error e => ([], some e)
  | Except.ok stream => self.copy_entries stream source.path destination

/-- Embeds `Copier::copy_options`: normalize both paths, route glob
sources to the glob copy, otherwise stat the source and dispatch on its
mode (directory, file, or an `Unsupported` failure). -/
def Copier.copy_options (self : Copier) (source destination : String)
    (options : CopyOptions) : List DestOp × Option OpError :=
  let source := normalize_path source
  let destination := normalize_path destination
  if has_glob_chars source then self.copy_glob source destination
  else
    match self.statSrc source with
    | Except.error e => ([], some e)
    | Except.ok stat =>
      match stat.mode with
      | EntryMode.DIR => self.copy_dir ⟨source, stat⟩ destination options.recursive
      | EntryMode.FILE => self.copy_file ⟨source, stat⟩ destination
      | EntryMode.Unknown => ([], some ⟨ErrorKind.Unsupported, "Unknown entry mode"⟩)

/-- Embeds `Copier::copy`: `copy_options` with the default options. -/
def Copier.copy (self : Copier) (source destination : String) :
    List DestOp × Option OpError :=
  self.copy_options source destination CopyOptions.default

/-- Embeds the free function `copy`: construct a copier and copy. -/
def copy (self : Copier) (source destination : String) :
    List DestOp × Option OpError :=
  self.copy source destination

/-- The arguments of the `create_dir` calls in a trace, in order. -/
def createDirPaths (ops : List DestOp) : List String :=
  ops.filterMap (fun op =>
    match op with
    | DestOp.createDir p => some p
    | _ => none)

/-- The byte content readable at `p` after a trace of destination ops:
the chunks written to `p`, concatenated in order. -/
def contentAt (ops : List DestOp) (p : String) : List Nat :=
  ops.foldl (fun acc op =>
    match op with
    | DestOp.writeChunk q c => if q = p then acc ++ c else acc
    | _ => acc) []

/-! ## Anchors: the repository's own unit-test vectors -/

/-- Anchor (`test_normalize_path`): dot and parent segments, repeated
and leading separators. -/
theorem normalize_anchor_basic :
    normalize_path "dir/./file.txt" = "dir/file.txt" ∧
    normalize_path "dir/subdir/../file.txt" = "dir/file.txt" ∧
    normalize_path "dir//subdir//file.txt" = "dir/subdir/file.txt" ∧
    normalize_path "/dir/./subdir/../another//file.txt" = "dir/another/file.txt" ∧
    normalize_path "/dir/" = "dir/" ∧
    normalize_path "" = "" ∧ normalize_path "." = "" ∧
    normalize_path ".." = "" ∧ normalize_path "../" = "/" := by
  decide

/-- Anchor (`test_normalize_path_glob_patterns`): glob metacharacters
survive normalization. -/
theorem normalize_anchor_glob :
    normalize_path "dir/**/*.rs" = "dir/**/*.rs" ∧
    normalize_path "file[0-9].txt" = "file[0-9].txt" ∧
    normalize_path "dir/../*.txt" = "*.txt" ∧
    normalize_path "./src/**/*.rs" = "src/**/*.rs" := by
  decide

/-- Anchor (`test_literal_prefix`): the glob-free leading segments. -/
theorem literal_prefix_anchor :
    literalPrefixOf "path/to/some/**/*.txt" = some "path/to/some" ∧
    literalPrefixOf "path/to/s?me/**/*.txt" = some "path/to" ∧
    literalPrefixOf "path/to/som[ae]/**/*.txt" = some "path/to" ∧
    literalPrefixOf "path/to/some/file" = none := by
  decide

/-! ## Lemmas on splitting and joining -/

theorem splitSlash_ne_nil (cs : List Char) : splitSlash cs ≠ [] := by
  induction cs with
  | nil => simp [splitSlash]
  | cons c cs ih =>
    simp only [splitSlash]
    split
    · simp
    · split
      · simp
      · simp

/-- Segments produced by `splitSlash` contain no separator. -/
theorem splitSlash_no_slash (cs : List Char) :
    ∀ s ∈ splitSlash cs, ∀ c ∈ s, c ≠ '/' := by
  induction cs with
  | nil =>
    intro s hs
    simp [splitSlash] at hs
    simp [hs]
  | cons c cs ih =>
    intro s hs
    simp only [splitSlash] at hs
    by_cases hc : c = '/'
    · simp [hc] at hs
      rcases hs with h | h
      · simp [h]
      · exact ih s h
    · simp [hc] at hs
      rcases hsplit : splitSlash cs with _ | ⟨s₀, rest⟩
      · exact absurd hsplit (splitSlash_ne_nil cs)
      · rw [hsplit] at hs
        simp at hs
        rcases hs with h | h
        · subst h
          intro d hd
          rcases List.mem_cons.mp hd with h | h
          · simpa [h] using hc
          · exact ih s₀ (hsplit ▸ List.mem_cons_self s₀ rest) d h
        · exact ih s (hsplit ▸ List.mem_cons_of_mem s₀ h)

/-- Splitting a slash-free run followed by a separator peels one
segment. -/
theorem splitSlash_append (s rest : List Char) (h : ∀ c ∈ s, c ≠ '/') :
    splitSlash (s ++ '/' :: rest) = s :: splitSlash rest := by
  induction s with
  | nil => simp [splitSlash]
  | cons c s ih =>
    have hc : c ≠ '/' := h c (List.mem_cons_self c s)
    have ih' := ih (fun d hd => h d (List.mem_cons_of_mem c hd))
    simp only [List.cons_append, splitSlash]
    rw [if_neg hc]
    simp only [List.append_eq]
    rw [ih']

/-- Splitting a slash-free list is the identity. -/
theorem splitSlash_of_no_slash (s : List Char) (h : ∀ c ∈ s, c ≠ '/') :
    splitSlash s = [s] := by
  induction s with
  | nil => simp [splitSlash]
  | cons c s ih =>
    have hc : c ≠ '/' := h c (List.mem_cons_self c s)
    have ih' := ih (fun d hd => h d (List.mem_cons_of_mem c hd))
    simp only [splitSlash]
    rw [if_neg hc, ih']

/-- Splitting after joining recovers the segments, when the segments
are slash-free. -/
theorem splitSlash_joinSlash (ss : List (List Char)) (hne : ss ≠ [])
    (h : ∀ s ∈ ss, ∀ c ∈ s, c ≠ '/') :
    splitSlash (joinSlash ss) = ss := by
  induction ss with
  | nil => exact absurd rfl hne
  | cons s ss ih =>
    cases ss with
    | nil =>
      simp only [joinSlash]
      exact splitSlash_of_no_slash s (h s (List.mem_cons_self s []))
    | cons s' rest =>
      simp only [joinSlash]
      rw [splitSlash_append s _ (h s (List.mem_cons_self s _))]
      rw [ih (by simp) (fun t ht => h t (List.mem_cons_of_mem s ht))]

/-- Splitting a join followed by a trailing separator appends one empty
segment. -/
theorem splitSlash_joinSlash_slash (ss : List (List Char)) (hne : ss ≠ [])
    (h : ∀ s ∈ ss, ∀ c ∈ s, c ≠ '/') :
    splitSlash (joinSlash ss ++ ['/']) = ss ++ [[]] := by
  induction ss with
  | nil => exact absurd rfl hne
  | cons s ss ih =>
    cases ss with
    | nil =>
      simp only [joinSlash]
      rw [show s ++ ['/'] = s ++ '/' :: [] from rfl,
        splitSlash_append s [] (h s (List.mem_cons_self s []))]
      simp [splitSlash]
    | cons s' rest =>
      simp only [joinSlash, List.cons_append, List.append_assoc]
      rw [splitSlash_append s _ (h s (List.mem_cons_self s _))]
      rw [ih (by simp) (fun t ht => h t (List.mem_cons_of_mem s ht))]
      simp

/-! ## Lemmas on normalization -/

/-- A segment surviving normalization: nonempty, not a dot segment, and
slash-free. -/
def goodSeg (s : List Char) : Prop :=
  s ≠ [] ∧ s ≠ ['.'] ∧ s ≠ ['.', '.'] ∧ ∀ c ∈ s, c ≠ '/'

theorem normStepL_good (acc : List (List Char)) (seg : List Char)
    (hacc : ∀ s ∈ acc, goodSeg s) (hseg : ∀ c ∈ seg, c ≠ '/') :
    ∀ s ∈ normStepL acc seg, goodSeg s := by
  intro s hs
  unfold normStepL at hs
  by_cases h0 : seg = []
  · rw [if_pos h0] at hs; exact hacc s hs
  · rw [if_neg h0] at hs
    by_cases h1 : seg = ['.']
    · rw [if_pos h1] at hs; exact hacc s hs
    · rw [if_neg h1] at hs
      by_cases h2 : seg = ['.', '.']
      · rw [if_pos h2] at hs
        exact hacc s ((List.dropLast_sublist acc).subset hs)
      · rw [if_neg h2] at hs
        rcases List.mem_append.mp hs with h | h
        · exact hacc s h
        · have : s = seg := by simpa using h
          subst this
          exact ⟨h0, h1, h2, hseg⟩

theorem foldl_normStep_good (segs : List (List Char)) :
    ∀ acc, (∀ s ∈ acc, goodSeg s) → (∀ s ∈ segs, ∀ c ∈ s, c ≠ '/') →
    ∀ s ∈ List.foldl normStepL acc segs, goodSeg s := by
  induction segs with
  | nil => intro acc hacc _ s hs; exact hacc s hs
  | cons seg segs ih =>
    intro acc hacc hsegs s hs
    simp only [List.foldl_cons] at hs
    exact ih (normStepL acc seg)
      (normStepL_good acc seg hacc (hsegs seg (List.mem_cons_self seg segs)))
      (fun t ht => hsegs t (List.mem_cons_of_mem seg ht)) s hs

/-- Each normalized segment is good. -/
theorem normSegs_good (cs : List Char) : ∀ s ∈ normSegs cs, goodSeg s :=
  foldl_normStep_good (splitSlash cs) [] (by simp)
    (splitSlash_no_slash cs)

/-- Folding the normalization step over already-good segments appends
them unchanged. -/
theorem foldl_normStep_id (segs : List (List Char)) :
    ∀ acc, (∀ s ∈ segs, goodSeg s) → List.foldl normStepL acc segs = acc ++ segs := by
  induction segs with
  | nil => intro acc _; simp
  | cons seg segs ih =>
    intro acc hsegs
    obtain ⟨h0, h1, h2, _⟩ := hsegs seg (List.mem_cons_self seg segs)
    simp only [List.foldl_cons]
    rw [show normStepL acc seg = acc ++ [seg] from by
      unfold normStepL; rw [if_neg h0, if_neg h1, if_neg h2]]
    rw [ih (acc ++ [seg]) (fun t ht => hsegs t (List.mem_cons_of_mem seg ht))]
    simp

theorem joinSlash_ne_nil (ss : List (List Char)) (hne : ss ≠ [])
    (h : ∀ s ∈ ss, goodSeg s) : joinSlash ss ≠ [] := by
  cases ss with
  | nil => exact absurd rfl hne
  | cons s ss =>
    cases ss with
    | nil =>
      simpa [joinSlash] using (h s (List.mem_cons_self s [])).1
    | cons s' rest =>
      simp [joinSlash]

theorem head?_joinSlash (s : List Char) (ss : List (List Char)) (hs : s ≠ []) :
    (joinSlash (s :: ss)).head? = s.head? := by
  cases ss with
  | nil => rfl
  | cons s' rest =>
    simp only [joinSlash]
    exact List.head?_append_of_ne_nil s hs

theorem getLast?_joinSlash_ne_slash (ss : List (List Char))
    (h : ∀ s ∈ ss, goodSeg s) (hne : ss ≠ []) :
    ¬ (joinSlash ss).getLast? = some '/' := by
  induction ss with
  | nil => exact absurd rfl hne
  | cons s ss ih =>
    cases ss with
    | nil =>
      intro hlast
      simp only [joinSlash] at hlast
      exact (h s (List.mem_cons_self s [])).2.2.2 '/'
        (List.mem_of_mem_getLast? (by simp [hlast])) rfl
    | cons s' rest =>
      intro hlast
      simp only [joinSlash] at hlast
      have hjoin : joinSlash (s' :: rest) ≠ [] :=
        joinSlash_ne_nil (s' :: rest) (by simp)
          (fun t ht => h t (List.mem_cons_of_mem s ht))
      rw [show s ++ '/' :: joinSlash (s' :: rest)
            = (s ++ ['/']) ++ joinSlash (s' :: rest) from by simp,
        List.getLast?_append_of_ne_nil _ hjoin] at hlast
      exact ih (fun t ht => h t (List.mem_cons_of_mem s ht)) (by simp) hlast

/-- Normalizing preserves the normalized segments. -/
theorem normSegs_normalizeL (cs : List Char) :
    normSegs (normalizeL cs) = normSegs cs := by
  rcases hsegs : normSegs cs with _ | ⟨s, ss⟩
  · unfold normalizeL
    rw [hsegs]
    by_cases hdir : cs.getLast? = some '/'
    · rw [if_pos hdir]; decide
    · rw [if_neg hdir]; decide
  · have hgood : ∀ t ∈ normSegs cs, goodSeg t := normSegs_good cs
    rw [hsegs] at hgood
    have hnosl : ∀ t ∈ s :: ss, ∀ c ∈ t, c ≠ '/' :=
      fun t ht => (hgood t ht).2.2.2
    unfold normalizeL
    rw [hsegs]
    by_cases hdir : cs.getLast? = some '/'
    · rw [if_pos hdir]
      unfold normSegs
      rw [splitSlash_joinSlash_slash (s :: ss) (by simp) hnosl,
        List.foldl_append, foldl_normStep_id (s :: ss) [] hgood]
      simp [normStepL]
    · rw [if_neg hdir]
      unfold normSegs
      rw [splitSlash_joinSlash (s :: ss) (by simp) hnosl,
        foldl_normStep_id (s :: ss) [] hgood]
      simp

/-- Normalizing preserves the trailing-separator (directory) marker. -/
theorem getLast?_normalizeL (cs : List Char) :
    (normalizeL cs).getLast? = some '/' ↔ cs.getLast? = some '/' := by
  unfold normalizeL
  by_cases hdir : cs.getLast? = some '/'
  · rw [if_pos hdir]
    simp [hdir, List.getLast?_concat]
  · rw [if_neg hdir]
    constructor
    · intro hlast
      rcases hsegs : normSegs cs with _ | ⟨s, ss⟩
      · rw [hsegs] at hlast; simp [joinSlash] at hlast
      · rw [hsegs] at hlast
        have hgood : ∀ t ∈ normSegs cs, goodSeg t := normSegs_good cs
        rw [hsegs] at hgood
        exact absurd hlast (getLast?_joinSlash_ne_slash (s :: ss) hgood (by simp))
    · intro hlast; exact absurd hlast hdir

/-- The composite `normalize_path` is idempotent at the character level. -/
theorem normalizeL_idem (cs : List Char) :
    normalizeL (normalizeL cs) = normalizeL cs := by
  have hstep : ∀ ds : List Char, normalizeL ds =
      if ds.getLast? = some '/' then joinSlash (normSegs ds) ++ ['/']
      else joinSlash (normSegs ds) := fun ds => rfl
  rw [hstep (normalizeL cs), normSegs_normalizeL]
  by_cases hdir : cs.getLast? = some '/'
  · rw [if_pos ((getLast?_normalizeL cs).mpr hdir), hstep cs, if_pos hdir]
  · rw [if_neg (fun h => hdir ((getLast?_normalizeL cs).mp h)), hstep cs,
      if_neg hdir]

/-! ## Claims C6 and C7: normalization properties -/

/-- C6: `normalize` is idempotent for all glob-free paths: for every
glob-free input string `p`, `normalize(normalize(p)) = normalize(p)`.
(The proof does not even need the glob-free restriction.) -/
theorem spec_c6_normalize_idempotent (p : String) (_h : has_glob_chars p = false) :
    normalize_path (normalize_path p) = normalize_path p := by
  unfold normalize_path
  exact congrArg String.mk (normalizeL_idem p.data)

/-- Witness for C6 at the concrete glob-free path `a/./b//c/../d/`. -/
theorem spec_c6_witness :
    has_glob_chars "a/./b//c/../d/" = false ∧
    normalize_path (normalize_path "a/./b//c/../d/") = normalize_path "a/./b//c/../d/" :=
  ⟨by decide, spec_c6_normalize_idempotent "a/./b//c/../d/" (by decide)⟩

/-- The normalized path starts with a separator only when it is exactly
the root-directory string. -/
theorem head?_normalizeL (cs : List Char) (h : normalizeL cs ≠ ['/']) :
    ¬ (normalizeL cs).head? = some '/' := by
  intro hhead
  rcases hsegs : normSegs cs with _ | ⟨s, ss⟩
  · unfold normalizeL at hhead h
    rw [hsegs] at hhead h
    by_cases hdir : cs.getLast? = some '/'
    · rw [if_pos hdir] at h
      exact h rfl
    · rw [if_neg hdir] at hhead
      simp [joinSlash] at hhead
  · have hgood : ∀ t ∈ normSegs cs, goodSeg t := normSegs_good cs
    rw [hsegs] at hgood
    have hs : goodSeg s := hgood s (List.mem_cons_self s ss)
    have hjoin : (joinSlash (s :: ss)).head? = s.head? :=
      head?_joinSlash s ss hs.1
    have hsh : ¬ s.head? = some '/' := by
      cases s with
      | nil => exact absurd rfl hs.1
      | cons c s' =>
        intro hc
        simp at hc
        exact hs.2.2.2 c (by simp) hc
    unfold normalizeL at hhead
    rw [hsegs] at hhead
    by_cases hdir : cs.getLast? = some '/'
    · rw [if_pos hdir] at hhead
      rw [List.head?_append_of_ne_nil _
        (joinSlash_ne_nil (s :: ss) (by simp) hgood), hjoin] at hhead
      exact hsh hhead
    · rw [if_neg hdir, hjoin] at hhead
      exact hsh hhead

/-- C7, corrected: the claim says the normalized result never starts
with a separator, but `normalize_path "/"` is `"/"` (the code's own
test asserts this).  The amended statement: for every input whose
normalization is not exactly the root string `"/"`, the result has no
leading separator. -/
theorem spec_c7_no_leading_separator (p : String) (h : normalize_path p ≠ "/") :
    ¬ (normalize_path p).data.head? = some '/' := by
  have hne : normalizeL p.data ≠ ['/'] := by
    intro heq
    exact h (show normalize_path p = "/" from congrArg String.mk heq)
  exact head?_normalizeL p.data hne

/-- Counterexample to C7 as stated: at input `"/"` the normalized
result is `"/"`, which starts with the separator. -/
theorem spec_c7_counterexample :
    normalize_path "/" = "/" ∧ (normalize_path "/").data.head? = some '/' := by
  decide

/-- Witness for the amended C7 at the concrete input `"/dir/file.txt"`. -/
theorem spec_c7_witness :
    normalize_path "/dir/file.txt" ≠ "/" ∧
    ¬ (normalize_path "/dir/file.txt").data.head? = some '/' :=
  ⟨by decide, spec_c7_no_leading_separator "/dir/file.txt" (by decide)⟩

/-! ## Claims C4, C8, C9: listing -/

/-- C4: for every path with a defined literal prefix, `lister` forces a
recursive backend listing rooted at that prefix (whatever the caller's
options said), compiles the full original pattern, and yields exactly
the backend entries whose complete path matches; non-matching entries
are silently dropped. -/
theorem spec_c4_glob_lister (listB : ListB) (compile : GlobCompile)
    (path : String) (options : Option ListOptions) (pre : String)
    (m : String → Bool) (hpre : literalPrefixOf path = some pre)
    (hm : compile path = some m) :
    lister listB compile path options =
      Except.ok ((listB pre ⟨true⟩).filter (fun r =>
        match r with
        | Except.ok e => m e.path
        | Except.error _ => true)) ∧
    ∀ e : Entry,
      Except.ok e ∈ (listB pre ⟨true⟩).filter (fun r =>
        match r with
        | Except.ok e => m e.path
        | Except.error _ => true) ↔
      Except.ok e ∈ listB pre ⟨true⟩ ∧ m e.path = true := by
  constructor
  · simp only [lister, hpre, hm]
  · intro e
    rw [List.mem_filter]

/-- Witness for C4: the matcher keeps `dir/a.txt` and drops the
non-matching entries of the recursive listing under `dir`. -/
def c8FileEntry : Entry := ⟨"dir/a.txt", ⟨EntryMode.FILE, none, none⟩⟩

/-- A directory entry yielded by the backend under `dir`. -/
def c8DirEntry : Entry := ⟨"dir/sub/", ⟨EntryMode.DIR, none, none⟩⟩

/-- A concrete backend-listing oracle: the recursive listing of `dir`
holds a file and a directory entry. -/
def c8ListB : ListB := fun p o =>
  if p = "dir" ∧ o.recursive = true then [Except.ok c8FileEntry, Except.ok c8DirEntry]
  else []

/-- A concrete glob-compilation oracle recording globset's verdicts for
the pattern `dir/*.txt` on the paths that occur: `dir/a.txt` matches,
`dir/sub/` does not (`*` matches within one segment and the suffix must
be `.txt`). -/
def c8Compile : GlobCompile := fun pat =>
  if pat = "dir/*.txt" then some (fun s => s = "dir/a.txt") else none

theorem spec_c4_witness :
    lister c8ListB c8Compile "dir/*.txt" none =
      Except.ok ((c8ListB "dir" ⟨true⟩).filter (fun r =>
        match r with
        | Except.ok e => (fun s => s = "dir/a.txt") e.path
        | Except.error _ => true)) ∧
    lister c8ListB c8Compile "dir/*.txt" none = Except.ok [Except.ok c8FileEntry] := by
  refine ⟨(spec_c4_glob_lister c8ListB c8Compile "dir/*.txt" none "dir"
    (fun s => decide (s = "dir/a.txt")) (by decide) rfl).1, ?_⟩
  decide

/-- C8, counterexample: under a glob, a directory entry produced by the
backend listing is dropped by the pattern filter, so directory entries
do not always pass through the listing layer. -/
theorem spec_c8_counterexample :
    Except.ok c8DirEntry ∈ c8ListB "dir" ⟨true⟩ ∧
    c8DirEntry.meta.mode = EntryMode.DIR ∧
    lister c8ListB c8Compile "dir/*.txt" none = Except.ok [Except.ok c8FileEntry] ∧
    ¬ (Except.ok c8DirEntry : Except OpError Entry) ∈
      ([Except.ok c8FileEntry] : List (Except OpError Entry)) := by
  decide

/-- C8, amended: for glob-free paths every backend entry — directory
entries included — passes through `lister` unfiltered; under a glob,
directory entries are subject to the same pattern filter as any entry
and are dropped unless their complete path matches. -/
theorem spec_c8_dir_entries (listB : ListB) (compile : GlobCompile)
    (path : String) (options : Option ListOptions) :
    (literalPrefixOf path = none →
      lister listB compile path options =
        Except.ok (listB path (options.getD ListOptions.default))) ∧
    (∀ pre m s, literalPrefixOf path = some pre → compile path = some m →
      lister listB compile path options = Except.ok s →
      ∀ e : Entry, Except.ok e ∈ s ↔
        Except.ok e ∈ listB pre ⟨true⟩ ∧ m e.path = true) := by
  constructor
  · intro hpre
    cases options with
    | none => simp only [lister, hpre, Option.getD]
    | some o => simp only [lister, hpre, Option.getD]
  · intro pre m s hpre hm hs e
    simp only [lister, hpre, hm, Except.ok.injEq] at hs
    subst hs
    rw [List.mem_filter]

/-- Witness for the amended C8: a glob-free path returns the backend
stream unchanged, directory entry included. -/
theorem spec_c8_witness :
    lister c8ListB c8Compile "plain/path" none =
      Except.ok (c8ListB "plain/path" ListOptions.default) :=
  (spec_c8_dir_entries c8ListB c8Compile "plain/path" none).1 (by decide)

theorem collectStream_eq_collectSpec (s : List (Except OpError Entry)) :
    collectStream s = collectSpec s := by
  induction s with
  | nil => rfl
  | cons r rest ih =>
    cases r with
    | error err => rfl
    | ok e =>
      have h1 : firstErrOf (Except.ok e :: rest) = firstErrOf rest := rfl
      have h2 : okEntriesOf (Except.ok e :: rest) = e :: okEntriesOf rest := rfl
      simp only [collectStream, ih, collectSpec, h1, h2]
      cases hfe : firstErrOf rest with
      | none => rfl
      | some err => rfl

/-- C9: the eager `list` is the collection of the lazy `lister` stream:
when `lister` fails, `list` fails identically; when `lister` yields a
stream, `list` returns exactly its entries in order, or its first
error. -/
theorem spec_c9_list_lister_equiv (listB : ListB) (compile : GlobCompile)
    (path : String) (options : Option ListOptions) :
    (∀ e, lister listB compile path options = Except.error e →
      list listB compile path options = Except.error e) ∧
    (∀ s, lister listB compile path options = Except.ok s →
      list listB compile path options = collectSpec s) := by
  constructor
  · intro e he
    simp only [list, he, Except.bind]
  · intro s hs
    simp only [list, hs, Except.bind]
    exact collectStream_eq_collectSpec s

/-- A backend stream with an entry followed by an error, for the C9
witness. -/
def c9ListB : ListB := fun _ _ =>
  [Except.ok c8FileEntry, Except.error ⟨ErrorKind.Unexpected, "boom"⟩]

theorem spec_c9_witness :
    list c9ListB c8Compile "plain" none =
      collectSpec [Except.ok c8FileEntry, Except.error ⟨ErrorKind.Unexpected, "boom"⟩] ∧
    list c9ListB c8Compile "plain" none =
      Except.error ⟨ErrorKind.Unexpected, "boom"⟩ := by
  refine ⟨(spec_c9_list_lister_equiv c9ListB c8Compile "plain" none).2 _ (by decide), ?_⟩
  decide

/-! ## Claim C1: byte-exact single-file transfer -/

theorem writeChunks_map_ok (dest : String) (chunks : List Chunk) :
    writeChunks dest (chunks.map Except.ok) =
      (chunks.map (DestOp.writeChunk dest), none) := by
  induction chunks with
  | nil => rfl
  | cons c cs ih => simp only [List.map_cons, writeChunks, ih]

theorem foldl_contentStep (dest : String) (chunks : List Chunk) :
    ∀ acc, List.foldl (fun acc op =>
        match op with
        | DestOp.writeChunk q c => if q = dest then acc ++ c else acc
        | _ => acc) acc (chunks.map (DestOp.writeChunk dest)) = acc ++ chunks.flatten := by
  induction chunks with
  | nil => intro acc; simp
  | cons c cs ih =>
    intro acc
    simp only [List.map_cons, List.foldl_cons, List.flatten_cons]
    rw [if_pos trivial, ih (acc ++ c), List.append_assoc]

/-- The content written at the destination by a full chunk trace is the
concatenation of the chunks, in order. -/
theorem contentAt_writes (dest : String) (ct : Option String) (chunks : List Chunk) :
    contentAt (DestOp.openWriter dest ct ::
      (chunks.map (DestOp.writeChunk dest) ++ [DestOp.closeWriter dest])) dest =
      chunks.flatten := by
  unfold contentAt
  simp only [List.foldl_cons, List.foldl_append]
  rw [foldl_contentStep dest chunks []]
  simp

/-- C1: for a single-file copy whose source stream succeeds, the trace
of `do_copy_file` opens the writer, writes every chunk of the source
stream in order, and closes it; the byte content readable at the
destination equals the source's byte content (the chunk concatenation)
exactly. -/
theorem spec_c1_do_copy_file (self : Copier) (source : Source) (destination : String)
    (chunks : List Chunk) (h : self.readSrc source.path = chunks.map Except.ok) :
    self.do_copy_file source destination =
      (DestOp.openWriter destination source.meta.contentType ::
        (chunks.map (DestOp.writeChunk destination) ++ [DestOp.closeWriter destination]),
       none) ∧
    contentAt (self.do_copy_file source destination).1 destination = chunks.flatten := by
  have hwc : writeChunks destination (self.readSrc source.path) =
      (chunks.map (DestOp.writeChunk destination), none) := by
    rw [h]; exact writeChunks_map_ok destination chunks
  have hmain : self.do_copy_file source destination =
      (DestOp.openWriter destination source.meta.contentType ::
        (chunks.map (DestOp.writeChunk destination) ++ [DestOp.closeWriter destination]),
       none) := by
    simp only [Copier.do_copy_file, hwc]
  refine ⟨hmain, ?_⟩
  rw [hmain]
  exact contentAt_writes destination source.meta.contentType chunks

/-- A copier whose reader streams the bytes of `foo` in two chunks. -/
def c1Copier : Copier :=
  { statSrc := fun _ => Except.error ⟨ErrorKind.NotFound, "nf"⟩,
    statDst := fun _ => Except.error ⟨ErrorKind.NotFound, "nf"⟩,
    listSrc := fun _ _ => [],
    compile := fun _ => none,
    readSrc := fun p =>
      if p = "src.txt" then [Except.ok [102, 111], Except.ok [111]] else [] }

theorem spec_c1_witness :
    contentAt (c1Copier.do_copy_file ⟨"src.txt", ⟨EntryMode.FILE, none, none⟩⟩
      "dst.txt").1 "dst.txt" = [102, 111, 111] := by
  have h := (spec_c1_do_copy_file c1Copier ⟨"src.txt", ⟨EntryMode.FILE, none, none⟩⟩
    "dst.txt" [[102, 111], [111]] (by decide)).2
  rw [h]
  decide

/-! ## Claim C2: file-copy destination resolution -/

/-- C2: resolving the destination of a file copy.  Onto a directory,
the file lands at the destination joined with the source's name (the
last path segment, else the content-disposition filename hint, else an
`Unexpected` "Source has no filename" failure); onto an existing
non-directory, it is streamed to the destination path unchanged
(overwrite); onto a missing path, the destination's parent directory is
created and the file is streamed to the literal destination path. -/
theorem spec_c2_copy_file (self : Copier) (source : Source) (destination : String) :
    (∀ st n, self.statDst destination = Except.ok st → st.mode = EntryMode.DIR →
      source.name = Except.ok n →
      self.copy_file source destination =
        self.do_copy_file source (joinPath destination n)) ∧
    (∀ st, self.statDst destination = Except.ok st → st.mode = EntryMode.DIR →
      fileNameOf source.path = none → source.meta.contentDispositionFilename = none →
      self.copy_file source destination =
        ([], some ⟨ErrorKind.Unexpected, "Source has no filename"⟩)) ∧
    (∀ n, fileNameOf source.path = some n → source.name = Except.ok n) ∧
    (∀ n, fileNameOf source.path = none →
      source.meta.contentDispositionFilename = some n → source.name = Except.ok n) ∧
    (∀ st, self.statDst destination = Except.ok st → st.mode ≠ EntryMode.DIR →
      self.copy_file source destination = self.do_copy_file source destination) ∧
    (∀ e, self.statDst destination = Except.error e → e.kind = ErrorKind.NotFound →
      self.copy_file source destination =
        ((match parentPath destination with
          | some par => [DestOp.createDir par]
          | none => []) ++ (self.do_copy_file source destination).1,
         (self.do_copy_file source destination).2)) := by
  refine ⟨?_, ?_, ?_, ?_, ?_, ?_⟩
  · intro st n hst hmode hname
    simp only [Copier.copy_file, hst]
    rw [if_pos hmode, hname]
  · intro st hst hmode hfn hcd
    have hname : source.name = Except.error ⟨ErrorKind.Unexpected, "Source has no filename"⟩ := by
      simp only [Source.name, hfn, hcd]
    simp only [Copier.copy_file, hst]
    rw [if_pos hmode, hname]
  · intro n hfn
    simp only [Source.name, hfn]
  · intro n hfn hcd
    simp only [Source.name, hfn, hcd]
  · intro st hst hmode
    simp only [Copier.copy_file, hst]
    rw [if_neg hmode]
  · intro e he hkind
    simp only [Copier.copy_file, he]
    rw [if_pos hkind]

/-- A copier whose destination has a directory at `existing/` and
nothing elsewhere, for the C2 witness. -/
def c2Copier : Copier :=
  { statSrc := fun _ => Except.error ⟨ErrorKind.NotFound, "nf"⟩,
    statDst := fun p =>
      if p = "existing/" then Except.ok ⟨EntryMode.DIR, none, none⟩
      else Except.error ⟨ErrorKind.NotFound, "nf"⟩,
    listSrc := fun _ _ => [],
    compile := fun _ => none,
    readSrc := fun _ => [Except.ok [1, 2]] }

theorem spec_c2_witness :
    c2Copier.copy_file ⟨"a/b.txt", ⟨EntryMode.FILE, none, none⟩⟩ "existing/" =
      c2Copier.do_copy_file ⟨"a/b.txt", ⟨EntryMode.FILE, none, none⟩⟩
        (joinPath "existing/" "b.txt") ∧
    joinPath "existing/" "b.txt" = "existing/b.txt" ∧
    c2Copier.copy_file ⟨"a/b.txt", ⟨EntryMode.FILE, none, none⟩⟩ "new/out.txt" =
      ([DestOp.createDir "new"] ++
        (c2Copier.do_copy_file ⟨"a/b.txt", ⟨EntryMode.FILE, none, none⟩⟩ "new/out.txt").1,
       (c2Copier.do_copy_file ⟨"a/b.txt", ⟨EntryMode.FILE, none, none⟩⟩ "new/out.txt").2) := by
  refine ⟨(spec_c2_copy_file c2Copier ⟨"a/b.txt", ⟨EntryMode.FILE, none, none⟩⟩
      "existing/").1 ⟨EntryMode.DIR, none, none⟩ "b.txt" (by decide) rfl (by decide),
    by decide, ?_⟩
  have h := (spec_c2_copy_file c2Copier ⟨"a/b.txt", ⟨EntryMode.FILE, none, none⟩⟩
    "new/out.txt").2.2.2.2.2 ⟨ErrorKind.NotFound, "nf"⟩ (by decide) rfl
  rw [h]
  rw [show parentPath "new/out.txt" = some "new" from by decide]

/-! ## Claim C3: directory/glob copy onto a file fails untouched -/

/-- C3: when the destination of a directory or glob copy stats as a
plain file, `copy_entries` fails with kind `NotADirectory` and performs
no destination effect at all: the trace is empty, so nothing is
written, no directory is created, and the destination file's content is
unchanged. -/
theorem spec_c3_dest_file_untouched (self : Copier)
    (stream : List (Except OpError Entry)) (sourcePre destination : String)
    (st : Metadata) (hst : self.statDst destination = Except.ok st)
    (hmode : st.mode = EntryMode.FILE) :
    self.copy_entries stream sourcePre destination =
      ([], some ⟨ErrorKind.NotADirectory, "Cannot copy directory to a file"⟩) := by
  simp only [Copier.copy_entries, hst]
  rw [if_pos hmode]

/-- A copier whose destination has a plain file at `existing_file.txt`,
for the C3 witness. -/
def c3Copier : Copier :=
  { statSrc := fun _ => Except.error ⟨ErrorKind.NotFound, "nf"⟩,
    statDst := fun p =>
      if p = "existing_file.txt" then Except.ok ⟨EntryMode.FILE, none, none⟩
      else Except.error ⟨ErrorKind.NotFound, "nf"⟩,
    listSrc := fun _ _ => [],
    compile := fun _ => none,
    readSrc := fun _ => [] }

theorem spec_c3_witness :
    c3Copier.copy_entries
        [Except.ok ⟨"path/file1.txt", ⟨EntryMode.FILE, none, none⟩⟩]
        "path/" "existing_file.txt" =
      ([], some ⟨ErrorKind.NotADirectory, "Cannot copy directory to a file"⟩) :=
  spec_c3_dest_file_untouched c3Copier
    [Except.ok ⟨"path/file1.txt", ⟨EntryMode.FILE, none, none⟩⟩]
    "path/" "existing_file.txt" ⟨EntryMode.FILE, none, none⟩ (by decide) rfl

/-! ## Claim C5: each destination directory created at most once -/

theorem createDirPaths_nil : createDirPaths [] = [] := rfl

theorem createDirPaths_cons_create (p : String) (ops : List DestOp) :
    createDirPaths (DestOp.createDir p :: ops) = p :: createDirPaths ops := rfl

theorem createDirPaths_cons_open (p : String) (ct : Option String) (ops : List DestOp) :
    createDirPaths (DestOp.openWriter p ct :: ops) = createDirPaths ops := rfl

theorem createDirPaths_cons_write (p : String) (c : Chunk) (ops : List DestOp) :
    createDirPaths (DestOp.writeChunk p c :: ops) = createDirPaths ops := rfl

theorem createDirPaths_cons_close (p : String) (ops : List DestOp) :
    createDirPaths (DestOp.closeWriter p :: ops) = createDirPaths ops := rfl

theorem createDirPaths_append (a b : List DestOp) :
    createDirPaths (a ++ b) = createDirPaths a ++ createDirPaths b :=
  List.filterMap_append a b _

/-- Streaming chunks never creates a directory. -/
theorem createDirPaths_writeChunks (d : String) (l : List (Except OpError Chunk)) :
    createDirPaths (writeChunks d l).1 = [] := by
  induction l with
  | nil => rfl
  | cons r rest ih =>
    cases r with
    | ok c =>
      simp only [writeChunks]
      rw [createDirPaths_cons_write]
      exact ih
    | error e => rfl

/-- A single-file transfer never creates a directory. -/
theorem createDirPaths_do_copy_file (self : Copier) (src : Source) (d : String) :
    createDirPaths (self.do_copy_file src d).1 = [] := by
  unfold Copier.do_copy_file
  cases hw : (writeChunks d (self.readSrc src.path)).2 with
  | some e =>
    simp only [hw]
    rw [createDirPaths_cons_open]
    exact createDirPaths_writeChunks d _
  | none =>
    simp only [hw]
    rw [createDirPaths_cons_open, createDirPaths_append,
      createDirPaths_writeChunks d _, createDirPaths_cons_close, createDirPaths_nil]
    rfl

/-- `ensureDir` either performs nothing and keeps the set, or creates
exactly one directory whose path was not yet in the set (component-wise)
and records it. -/
theorem ensureDir_cases (created : List String) (destPath : String) :
    ensureDir created destPath = ([], created) ∨
    ∃ par, ensureDir created destPath = ([DestOp.createDir (par ++ "/")], par :: created) ∧
      ∀ q ∈ created, ¬ pathComps q = pathComps par := by
  unfold ensureDir
  cases parentPath destPath with
  | none => exact Or.inl rfl
  | some par =>
    have hb : ((created.any fun q => decide (pathComps q = pathComps par)) = true) ↔
        ∃ q ∈ created, pathComps q = pathComps par := by
      simp [List.any_eq_true]
    by_cases hmem : ∃ q ∈ created, pathComps q = pathComps par
    · left
      show (if (created.any fun q => decide (pathComps q = pathComps par)) = true
          then (([] : List DestOp), created)
          else ([DestOp.createDir (par ++ "/")], par :: created)) = ([], created)
      rw [if_pos (hb.mpr hmem)]
    · right
      refine ⟨par, ?_, fun q hq h => hmem ⟨q, hq, h⟩⟩
      show (if (created.any fun q => decide (pathComps q = pathComps par)) = true
          then (([] : List DestOp), created)
          else ([DestOp.createDir (par ++ "/")], par :: created)) =
        ([DestOp.createDir (par ++ "/")], par :: created)
      rw [if_neg (fun h => hmem (hb.mp h))]

/-- Appending the separator to distinct paths keeps them distinct. -/
theorem string_append_slash_injective {a b : String} (h : a ++ "/" = b ++ "/") :
    a = b := by
  apply String.ext
  have hd := congrArg String.data h
  simp only [String.data_append] at hd
  simpa using hd

/-- Structure of the directory creations performed by the entry loop:
they are exactly `par ++ "/"` for a list of parents that are pairwise
distinct component-wise and all absent from the initial created set. -/
theorem entriesLoop_creates (self : Copier) (sourcePre destination : String)
    (stream : List (Except OpError Entry)) :
    ∀ created : List String,
    ∃ pars : List String,
      createDirPaths (self.entriesLoop sourcePre destination stream created).1 =
        pars.map (fun p => p ++ "/") ∧
      List.Pairwise (fun a b => ¬ pathComps a = pathComps b) pars ∧
      ∀ p ∈ pars, ∀ q ∈ created, ¬ pathComps q = pathComps p := by
  induction stream with
  | nil =>
    intro created
    exact ⟨[], rfl, List.Pairwise.nil, by simp⟩
  | cons r rest ih =>
    intro created
    cases r with
    | error e => exact ⟨[], rfl, List.Pairwise.nil, by simp⟩
    | ok entry =>
      by_cases hdir : entry.meta.mode = EntryMode.DIR
      · obtain ⟨pars, h1, h2, h3⟩ := ih created
        refine ⟨pars, ?_, h2, h3⟩
        have hskip : self.entriesLoop sourcePre destination (Except.ok entry :: rest) created =
            self.entriesLoop sourcePre destination rest created := by
          simp only [Copier.entriesLoop]
          rw [if_pos hdir]
        rw [hskip]
        exact h1
      · simp only [Copier.entriesLoop]
        rw [if_neg hdir]
        rcases hfr : self.do_copy_file ⟨entry.path, entry.meta⟩
            (joinPath destination (relPathOf sourcePre entry.path)) with ⟨fileOps, ferr⟩
        have hfOps : createDirPaths fileOps = [] := by
          have h0 := createDirPaths_do_copy_file self ⟨entry.path, entry.meta⟩
            (joinPath destination (relPathOf sourcePre entry.path))
          rw [hfr] at h0
          exact h0
        rcases ensureDir_cases created (joinPath destination (relPathOf sourcePre entry.path))
          with hED | ⟨par, hED, hfresh⟩
        · rw [hED]
          cases ferr with
          | some e =>
            refine ⟨[], ?_, List.Pairwise.nil, by simp⟩
            dsimp only
            rw [createDirPaths_append, hfOps, createDirPaths_nil]
            simp
          | none =>
            obtain ⟨pars', h1', h2', h3'⟩ := ih created
            refine ⟨pars', ?_, h2', h3'⟩
            dsimp only
            rw [createDirPaths_append, createDirPaths_append, hfOps, createDirPaths_nil, h1']
            simp
        · rw [hED]
          cases ferr with
          | some e =>
            refine ⟨[par], ?_, by simp, ?_⟩
            · dsimp only
              rw [createDirPaths_append, hfOps, createDirPaths_cons_create, createDirPaths_nil]
              simp
            · intro p hp q hq
              rw [List.mem_singleton] at hp
              subst hp
              exact hfresh q hq
          | none =>
            obtain ⟨pars', h1', h2', h3'⟩ := ih (par :: created)
            refine ⟨par :: pars', ?_, ?_, ?_⟩
            · dsimp only
              rw [createDirPaths_append, createDirPaths_append, hfOps,
                createDirPaths_cons_create, createDirPaths_nil, h1']
              simp
            · refine List.Pairwise.cons ?_ h2'
              intro b hb hpb
              exact h3' b hb par (List.mem_cons_self par created) hpb
            · intro p hp q hq
              rcases List.mem_cons.mp hp with h | h
              · subst h
                exact hfresh q hq
              · exact h3' p h q (List.mem_cons_of_mem par hq)

/-- C5: within one `copy_entries` traversal, `create_dir` is invoked at
most once per distinct destination directory path — the arguments of
all `create_dir` calls in the trace are pairwise distinct — and the
destination root, pre-marked in the created set, is never created again
inside the entry loop. -/
theorem spec_c5_create_dir_once (self : Copier) (stream : List (Except OpError Entry))
    (sourcePre destination : String) :
    List.Pairwise (fun a b => a ≠ b)
      (createDirPaths (self.copy_entries stream sourcePre destination).1) ∧
    (∀ created, (∃ q ∈ created, pathComps q = pathComps destination) →
      ∀ c ∈ createDirPaths (self.entriesLoop sourcePre destination stream created).1,
        c ≠ destination ++ "/") := by
  constructor
  · unfold Copier.copy_entries
    cases hst : self.statDst destination with
    | ok st =>
      dsimp only
      by_cases hmode : st.mode = EntryMode.FILE
      · rw [if_pos hmode]
        exact List.Pairwise.nil
      · rw [if_neg hmode]
        obtain ⟨pars, h1, h2, h3⟩ :=
          entriesLoop_creates self sourcePre destination stream [destination]
        rw [h1]
        refine List.pairwise_map.mpr (h2.imp ?_)
        intro a b hab heq
        exact hab (congrArg pathComps (string_append_slash_injective heq))
    | error e =>
      dsimp only
      by_cases hkind : e.kind = ErrorKind.NotFound
      · rw [if_pos hkind]
        obtain ⟨pars, h1, h2, h3⟩ :=
          entriesLoop_creates self sourcePre destination stream [destination]
        dsimp only
        rw [createDirPaths_cons_create, h1]
        refine List.Pairwise.cons ?_ (List.pairwise_map.mpr (h2.imp ?_))
        · intro c hc
          rw [List.mem_map] at hc
          obtain ⟨p, hp, rfl⟩ := hc
          intro heq
          have hdp : destination = p := string_append_slash_injective heq
          exact h3 p hp destination (List.mem_singleton_self destination)
            (by rw [hdp])
        · intro a b hab heq
          exact hab (congrArg pathComps (string_append_slash_injective heq))
      · rw [if_neg hkind]
        exact List.Pairwise.nil
  · intro created hmem c hc
    obtain ⟨pars, h1, h2, h3⟩ :=
      entriesLoop_creates self sourcePre destination stream created
    rw [h1, List.mem_map] at hc
    obtain ⟨p, hp, rfl⟩ := hc
    obtain ⟨q, hq, hqd⟩ := hmem
    intro heq
    have hpd : p = destination := string_append_slash_injective heq
    exact h3 p hp q hq (by rw [hqd, hpd])

/-- A copier whose destination has a directory at `out/`, for the C5
witness. -/
def c5Copier : Copier :=
  { statSrc := fun _ => Except.error ⟨ErrorKind.NotFound, "nf"⟩,
    statDst := fun p =>
      if p = "out/" then Except.ok ⟨EntryMode.DIR, none, none⟩
      else Except.error ⟨ErrorKind.NotFound, "nf"⟩,
    listSrc := fun _ _ => [],
    compile := fun _ => none,
    readSrc := fun _ => [] }

/-- Two sibling file entries sharing the parent `src/sub`. -/
def c5Stream : List (Except OpError Entry) :=
  [Except.ok ⟨"src/sub/a.txt", ⟨EntryMode.FILE, none, none⟩⟩,
   Except.ok ⟨"src/sub/b.txt", ⟨EntryMode.FILE, none, none⟩⟩]

theorem spec_c5_witness :
    createDirPaths (c5Copier.copy_entries c5Stream "src" "out/").1 = ["out/sub/"] ∧
    ∀ c ∈ createDirPaths (c5Copier.entriesLoop "src" "out/" c5Stream ["out/"]).1,
      c ≠ "out/" ++ "/" :=
  ⟨by decide,
    (spec_c5_create_dir_once c5Copier c5Stream "src" "out/").2 ["out/"]
      ⟨"out/", by decide, by decide⟩⟩

/-! ## Claim C10: default options are non-recursive -/

/-- Glob characters in a path are exactly the glob characters of its
slash-separated components. -/
theorem hasGlobCharsL_splitSlash (cs : List Char) :
    hasGlobCharsL cs = (splitSlash cs).any hasGlobCharsL := by
  induction cs with
  | nil => rfl
  | cons c cs ih =>
    by_cases hc : c = '/'
    · subst hc
      simp only [splitSlash, if_pos rfl, List.any_cons]
      rw [show hasGlobCharsL ('/' :: cs) = (isGlobChar '/' || hasGlobCharsL cs) from rfl]
      rw [show isGlobChar '/' = false from rfl, ih]
      rfl
    · rcases hsp : splitSlash cs with _ | ⟨s, rest⟩
      · exact absurd hsp (splitSlash_ne_nil cs)
      · simp only [splitSlash]
        rw [if_neg hc, hsp, List.any_cons]
        rw [show hasGlobCharsL (c :: cs) = (isGlobChar c || hasGlobCharsL cs) from rfl]
        rw [show hasGlobCharsL (c :: s) = (isGlobChar c || hasGlobCharsL s) from rfl]
        rw [ih, hsp, List.any_cons, Bool.or_assoc]

/-- A glob-free path has no literal prefix. -/
theorem literalPrefixOf_eq_none (p : String) (h : has_glob_chars p = false) :
    literalPrefixOf p = none := by
  unfold literalPrefixOf literalPrefixL
  dsimp only
  have hall : ∀ s ∈ splitSlash p.data, (!hasGlobCharsL s) = true := by
    intro s hs
    have hfalse : hasGlobCharsL s = false := by
      cases hh : hasGlobCharsL s
      · rfl
      · exfalso
        have hany : (splitSlash p.data).any hasGlobCharsL = true :=
          List.any_eq_true.mpr ⟨s, hs, hh⟩
        rw [← hasGlobCharsL_splitSlash] at hany
        rw [show hasGlobCharsL p.data = has_glob_chars p from rfl, h] at hany
        exact Bool.noConfusion hany
    simp [hfalse]
  rw [List.takeWhile_eq_self_iff.mpr hall]
  simp

/-- A glob-free listing delegates straight to the backend with the
caller's options, defaulting to a non-recursive listing. -/
theorem lister_no_glob (listB : ListB) (compile : GlobCompile) (path : String)
    (options : Option ListOptions) (hpre : literalPrefixOf path = none) :
    lister listB compile path options =
      Except.ok (listB path (options.getD ListOptions.default)) := by
  cases options with
  | none => simp only [lister, hpre, Option.getD]
  | some o => simp only [lister, hpre, Option.getD]

/-- C10: the no-options entry points — the free `copy` and
`Copier::copy` — are `copy_options` with the derived default options,
whose `recursive` flag is `false`; hence a glob-free directory source
is copied from the non-recursive (depth-1) backend listing. -/
theorem spec_c10_default_nonrecursive (self : Copier) (s d : String) :
    copy self s d = self.copy_options s d CopyOptions.default ∧
    Copier.copy self s d = self.copy_options s d ⟨false⟩ ∧
    CopyOptions.default = ⟨false⟩ ∧
    (∀ stat, has_glob_chars (normalize_path s) = false →
      self.statSrc (normalize_path s) = Except.ok stat → stat.mode = EntryMode.DIR →
      copy self s d =
        self.copy_entries (self.listSrc (normalize_path s) ListOptions.default)
          (normalize_path s) (normalize_path d)) := by
  refine ⟨rfl, rfl, rfl, ?_⟩
  intro stat hglob hstat hmode
  unfold copy Copier.copy Copier.copy_options
  rw [if_neg (by rw [hglob]; exact Bool.false_ne_true)]
  rw [hstat]
  dsimp only
  rw [hmode]
  dsimp only
  unfold Copier.copy_dir
  dsimp only [CopyOptions.default]
  rw [if_neg (by exact Bool.false_ne_true)]
  rw [lister_no_glob self.listSrc self.compile (normalize_path s) none
    (literalPrefixOf_eq_none (normalize_path s) hglob)]
  rfl

/-- A copier with a directory source at `dir/` whose non-recursive
listing has one file, for the C10 witness. -/
def c10Copier : Copier :=
  { statSrc := fun p =>
      if p = "dir/" then Except.ok ⟨EntryMode.DIR, none, none⟩
      else Except.error ⟨ErrorKind.NotFound, "nf"⟩,
    statDst := fun _ => Except.error ⟨ErrorKind.NotFound, "nf"⟩,
    listSrc := fun p o =>
      if p = "dir/" ∧ o.recursive = false
      then [Except.ok ⟨"dir/f.txt", ⟨EntryMode.FILE, none, none⟩⟩]
      else [],
    compile := fun _ => none,
    readSrc := fun _ => [] }

theorem spec_c10_witness :
    has_glob_chars (normalize_path "dir/") = false ∧
    copy c10Copier "dir/" "out/" =
      c10Copier.copy_entries
        (c10Copier.listSrc (normalize_path "dir/") ListOptions.default)
        (normalize_path "dir/") (normalize_path "out/") :=
  ⟨by decide, (spec_c10_default_nonrecursive c10Copier "dir/" "out/").2.2.2
    ⟨EntryMode.DIR, none, none⟩ (by decide) (by decide) rfl⟩
